import Mathlib

/-
Verification of the rpmconf conflict-resolution engine
(src/rpmconf/rpmconf.py) against its specification.

The Python code is shallowly embedded: a filesystem is an association
list from path strings to per-path states, the interactive loop of
`_handle_rpmnew` / `_handle_rpmsave` consumes an explicit list of input
events (one per blocking read), external merge tools are parameterised
by the outcome of their invocation, and the cycle-safe walk of
`_clean_orphan` works on directory identities ((device, inode) pairs,
indexed by `Fin n`) with the symbolic-link resolution performed by
`os.stat` already folded into the child relation.
-/

namespace Rpmconf

/-- Observable state of a single filesystem path.  `regular` is a plain
file with byte content and mtime; `validLink` is a symbolic link whose
target resolves to a file with the given content and mtime; `brokenLink`
is a symbolic link whose target does not exist; `absent` means nothing
exists at the path. -/
inductive FState
  | absent
  | regular (content : List Nat) (mtime : Nat)
  | validLink (target : String) (content : List Nat) (mtime : Nat)
  | brokenLink (target : String)
  deriving DecidableEq

/-- Model of `os.path.islink`. -/
def islink : FState → Bool
  | .validLink _ _ _ => true
  | .brokenLink _ => true
  | _ => false

/-- Model of `os.path.exists` (and of `os.access(p, os.F_OK)`): both
follow symbolic links, so a broken link does not exist. -/
def pathExists : FState → Bool
  | .regular _ _ => true
  | .validLink _ _ _ => true
  | _ => false

/-- Model of `os.readlink`; the code only calls it under an `islink`
guard, so the non-link case is never reached. -/
def linkTarget : FState → String
  | .validLink t _ _ => t
  | .brokenLink t => t
  | _ => ""

/-- Model of `os.stat` (follows links): `(size, mtime)`; `none` models
the `OSError` raised on an absent path or broken link. -/
def statOf : FState → Option (Nat × Nat)
  | .regular c m => some (c.length, m)
  | .validLink _ c m => some (c.length, m)
  | _ => none

/-- Resolved byte content of a path; `none` when there is none to read. -/
def contentOf : FState → Option (List Nat)
  | .regular c _ => some c
  | .validLink _ c _ => some c
  | _ => none

/-- `RpmConf.is_broken_symlink`, exactly as the source writes it:
`os.path.islink(file1) and os.path.exists(file1)`.  (Its docstring says
it detects broken symlinks, but as written it is true exactly for valid
symlinks, since `os.path.exists` follows the link.) -/
def is_broken_symlink (s : FState) : Bool :=
  islink s && pathExists s

/-- `filecmp.cmp(f1, f2)` with the default `shallow=True`: equal stat
signatures (size, mtime, both resolving to regular files) short-circuit
to `True`; otherwise the byte contents are compared.  `none` models the
`OSError` raised when either side cannot be stat'ed. -/
def filecmpCmp (a b : FState) : Option Bool :=
  match statOf a, statOf b, contentOf a, contentOf b with
  | some sa, some sb, some ca, some cb => some (decide (sa = sb) || decide (ca = cb))
  | _, _, _, _ => none

/-- A filesystem: association list from path to state.  Paths without an
entry are absent. -/
abbrev Fsys := List (String × FState)

/-- Look a path up in the filesystem. -/
def fsLookup (fs : Fsys) (p : String) : FState :=
  match fs with
  | [] => .absent
  | e :: rest => if e.1 = p then e.2 else fsLookup rest p

/-- Update (or create) the entry of a path. -/
def fsSet (fs : Fsys) (p : String) (s : FState) : Fsys :=
  match fs with
  | [] => [(p, s)]
  | e :: rest => if e.1 = p then (p, s) :: rest else e :: fsSet rest p s

/-- User-visible output relevant to the verified claims. -/
inductive Out
  | rmCmd (path : String)              -- the rm command line printed by _remove in debug mode
  | cpCmd (src dst : String)           -- the cp command line printed by _overwrite in debug mode
  | infoSymlink (path target : String) -- note that path is a symlink to target
  | warnBroken (path : String)         -- broken-symlink warning, /dev/null substituted
  | warnMissing (path : String)        -- missing-file warning, /dev/null substituted
  | notMerged                          -- the files-not-merged message
  | diffBody (file1 file2 : String) (fromdate todate : Option Nat) -- the unified diff itself
  deriving DecidableEq

/-- Model of `os.unlink`: removes the path's entry; `none` models the
`FileNotFoundError` raised when nothing (not even a link) is there. -/
def osUnlink (fs : Fsys) (p : String) : Option Fsys :=
  if fsLookup fs p = .absent then none else some (fsSet fs p .absent)

/-- `RpmConf._remove`: in debug mode it only prints the rm command line,
otherwise it unlinks the file. -/
def rpmconf_remove (debug : Bool) (fs : Fsys) (p : String) : Option (Fsys × List Out) :=
  if debug then some (fs, [Out.rmCmd p])
  else (osUnlink fs p).map (fun fs2 => (fs2, []))

/-- `RpmConf._copy`: a symbolic link is recreated at `dst` rather than
dereferenced (a pre-existing `dst` is unlinked first); a plain file is
copied with `shutil.copy2`, preserving content and mtime; copying an
absent source raises (`none`). -/
def rpmconf_copy (fs : Fsys) (src dst : String) : Option Fsys :=
  match fsLookup fs src with
  | .absent => none
  | st => some (fsSet fs dst st)

/-- `RpmConf._overwrite`: in debug mode it only prints the cp command
line, otherwise it copies `src` over `dst` and removes `src`. -/
def rpmconf_overwrite (debug : Bool) (fs : Fsys) (src dst : String) : Option (Fsys × List Out) :=
  if debug then some (fs, [Out.cpCmd src dst])
  else do
    let fs2 ← rpmconf_copy fs src dst
    let fs3 ← osUnlink fs2 src
    some (fs3, [])

/-- One side of `RpmConf.show_diff` (the per-file preparation): the
effective file handed to the differ, the timestamp used for that side
(`none` models the empty-string date), and the messages accumulated into
the error text.  The branch structure mirrors the source, including its
use of `is_broken_symlink` as written. -/
def show_diff_side (file1 : String) (st : FState) : String × Option Nat × List Out :=
  if islink st then
    let msgs := [Out.infoSymlink file1 (linkTarget st)]
    if is_broken_symlink st then
      (file1, (statOf st).map (fun x => x.2), msgs)
    else
      ("/dev/null", none, msgs ++ [Out.warnBroken file1])
  else
    if pathExists st then (file1, (statOf st).map (fun x => x.2), [])
    else ("/dev/null", none, [Out.warnMissing file1])

/-- `RpmConf.show_diff`: both sides are prepared, then the pager is fed
the accumulated messages followed by the diff body, built from the two
effective files and their timestamps. -/
def show_diff (fs : Fsys) (file1 file2 : String) : List Out :=
  let s1 := show_diff_side file1 (fsLookup fs file1)
  let s2 := show_diff_side file2 (fsLookup fs file2)
  s1.2.2 ++ s2.2.2 ++ [Out.diffBody s1.1 s2.1 s1.2.1 s2.2.1]

/-- Outcome of invoking an external program: clean exit, non-zero exit
(`subprocess.CalledProcessError`), or missing executable
(`FileNotFoundError`). -/
inductive CallResult
  | success
  | processError (code : Int)
  | notFound
  deriving DecidableEq

/-- The run configuration the handlers read: the debug (dry-run) flag,
the unattended policy string, the merge frontend, the MERGE environment
variable, the outcome of external tool invocations in this run, and the
content/mtime an output-writing merge tool produces. -/
structure Config where
  debug : Bool
  unattended : Option String
  frontend : Option String
  mergeEnv : Option String
  callResult : CallResult
  mergedContent : List Nat
  mergedMtime : Nat
  deriving DecidableEq

/-- Result of `_merge_conf_files`: either control returns to the caller
with the new filesystem and any messages, or the whole process exits. -/
inductive MergeRes
  | proceed (fs : Fsys) (outs : List Out)
  | exited (code : Nat) (fs : Fsys)
  deriving DecidableEq

/-- The scratch path produced by `tempfile.mkstemp` in the sdiff branch. -/
def tmpPath : String := "/tmp/rpmconf_sdiff"

/-- The successful (exit 0) and conflicts-marked (exit 1) sdiff paths:
the scratch file holds the merged text; the artifact is removed, the
scratch is copied over the base (note: `_copy`, not guarded by debug),
and the scratch is removed.  A `FileNotFoundError` from any file
operation is caught by the outer handler and exits with status 4. -/
def sdiffApply (cfg : Config) (fs : Fsys) (conf other : String) : Option MergeRes :=
  let fs1 := fsSet fs tmpPath (.regular cfg.mergedContent cfg.mergedMtime)
  match rpmconf_remove cfg.debug fs1 other with
  | none => some (.exited 4 fs1)
  | some (fs2, o1) =>
    match rpmconf_copy fs2 tmpPath conf with
    | none => some (.exited 4 fs2)
    | some fs3 =>
      match rpmconf_remove cfg.debug fs3 tmpPath with
      | none => some (.exited 4 fs3)
      | some (fs4, o2) => some (.proceed fs4 (o1 ++ o2))

/-- `RpmConf._merge_conf_files`.  Branching on the configured frontend:
vimdiff/gvimdiff/meld run the tool directly (a non-zero tool exit is an
uncaught `CalledProcessError`, modelled as `none`); diffuse catches the
non-zero exit and reports; kdiff3 writes its output to the base path
(leaving a `.orig` backup, both modelled as external tool effects) and
on success removes the artifact and the backup; sdiff merges through a
scratch file; with no frontend (or frontend "env") the MERGE environment
command is run when set; otherwise the process exits with status 2.  A
`FileNotFoundError` anywhere is caught and exits with status 4. -/
def merge_conf_files (cfg : Config) (fs : Fsys) (conf other : String) : Option MergeRes :=
  if cfg.frontend = some "vimdiff" ∨ cfg.frontend = some "gvimdiff" ∨ cfg.frontend = some "meld" then
    match cfg.callResult with
    | .success => some (.proceed fs [])
    | .processError _ => none
    | .notFound => some (.exited 4 fs)
  else if cfg.frontend = some "diffuse" then
    match cfg.callResult with
    | .success => some (.proceed fs [])
    | .processError _ => some (.proceed fs [Out.notMerged])
    | .notFound => some (.exited 4 fs)
  else if cfg.frontend = some "kdiff3" then
    match cfg.callResult with
    | .notFound => some (.exited 4 fs)
    | .processError _ => some (.proceed fs [Out.notMerged])
    | .success =>
      let fs1 := fsSet (fsSet fs (conf ++ ".orig") (fsLookup fs conf)) conf
        (.regular cfg.mergedContent cfg.mergedMtime)
      match rpmconf_remove cfg.debug fs1 other with
      | none => some (.exited 4 fs1)
      | some (fs2, o1) =>
        match rpmconf_remove cfg.debug fs2 (conf ++ ".orig") with
        | none => some (.exited 4 fs2)
        | some (fs3, o2) => some (.proceed fs3 (o1 ++ o2))
  else if cfg.frontend = some "sdiff" then
    match cfg.callResult with
    | .notFound => some (.exited 4 (fsSet fs tmpPath (.regular [] 0)))
    | .success => sdiffApply cfg fs conf other
    | .processError c =>
      if c = 1 then sdiffApply cfg fs conf other
      else some (.proceed (fsSet fs tmpPath (.regular [] 0)) [Out.notMerged])
  else if (cfg.frontend = some "env" ∨ cfg.frontend = none) ∧ cfg.mergeEnv ≠ none then
    match cfg.callResult with
    | .success => some (.proceed fs [])
    | .processError _ => none
    | .notFound => some (.exited 4 fs)
  else some (.exited 2 fs)

/-- One event per blocking interactive read: a line of input, an
end-of-file condition (`EOFError`), or a user interrupt
(`KeyboardInterrupt`). -/
inductive InputEvent
  | line (s : String)
  | eof
  | interrupt
  deriving DecidableEq

/-- The terminal file action a handler performed. -/
inductive FileAction
  | removedOther
  | overwroteConf
  deriving DecidableEq

/-- Result of one handler invocation: the final filesystem, the number
of interactive prompts issued, the terminal file action (if any), and
the exit status when the whole process terminated (`sys.exit`). -/
structure HandleResult where
  fs : Fsys
  prompts : Nat
  action : Option FileAction
  exitCode : Option Nat
  deriving DecidableEq

/-- Model of Python's `str.upper()` on the ASCII answers the prompt
compares against: uppercase every character. -/
def pyUpper (s : String) : String := String.mk (s.data.map Char.toUpper)

/-- The post-loop step of `_handle_rpmnew`: N/O keep the installed file
and delete the artifact, Y/I overwrite the installed file with the
artifact, S touches nothing. -/
def finishRpmnew (cfg : Config) (conf other : String) (fs : Fsys) (prompts : Nat)
    (o : String) : Option HandleResult :=
  if o = "N" ∨ o = "O" then
    (rpmconf_remove cfg.debug fs other).map (fun r => ⟨r.1, prompts, some .removedOther, none⟩)
  else if o = "Y" ∨ o = "I" then
    (rpmconf_overwrite cfg.debug fs other conf).map (fun r => ⟨r.1, prompts, some .overwroteConf, none⟩)
  else some ⟨fs, prompts, none, none⟩

/-- The post-loop step of `_handle_rpmsave`: Y/I keep the maintainer's
installed file and delete the backup, N/O restore the backup over the
installed file, S touches nothing. -/
def finishRpmsave (cfg : Config) (conf other : String) (fs : Fsys) (prompts : Nat)
    (o : String) : Option HandleResult :=
  if o = "Y" ∨ o = "I" then
    (rpmconf_remove cfg.debug fs other).map (fun r => ⟨r.1, prompts, some .removedOther, none⟩)
  else if o = "N" ∨ o = "O" then
    (rpmconf_overwrite cfg.debug fs other conf).map (fun r => ⟨r.1, prompts, some .overwroteConf, none⟩)
  else some ⟨fs, prompts, none, none⟩

/-- The interactive loop of `_handle_rpmnew`, one recursive step per
prompt-and-read.  The artifact is re-checked before and after every
read; end-of-file (also reading past the supplied input) maps the
choice to S; an interrupt exits the process with status 1; empty input
maps to the default N; D shows the diff and Z suspends the process,
both continuing the loop; M dispatches the merge and returns when the
artifact is gone afterwards; an unrecognised answer re-prompts. -/
def loopRpmnew (cfg : Config) (conf other : String) :
    Fsys → List InputEvent → Nat → Option HandleResult
  | fs, inputs, prompts =>
    if ¬ pathExists (fsLookup fs other) then
      some ⟨fs, prompts, none, none⟩
    else
      match inputs with
      | [] => finishRpmnew cfg conf other fs (prompts + 1) "S"
      | .eof :: _ => finishRpmnew cfg conf other fs (prompts + 1) "S"
      | .interrupt :: _ => some ⟨fs, prompts + 1, none, some 1⟩
      | .line s :: rest =>
        let o1 := pyUpper s
        if ¬ pathExists (fsLookup fs other) then some ⟨fs, prompts + 1, none, none⟩
        else
          let o := if o1 = "" then "N" else o1
          if o = "D" then loopRpmnew cfg conf other fs rest (prompts + 1)
          else if o = "Z" then loopRpmnew cfg conf other fs rest (prompts + 1)
          else if o = "M" then
            match merge_conf_files cfg fs conf other with
            | none => none
            | some (.exited c fs2) => some ⟨fs2, prompts + 1, none, some c⟩
            | some (.proceed fs2 _) =>
              if ¬ pathExists (fsLookup fs2 other) then some ⟨fs2, prompts + 1, none, none⟩
              else loopRpmnew cfg conf other fs2 rest (prompts + 1)
          else if o = "Y" ∨ o = "I" ∨ o = "N" ∨ o = "O" ∨ o = "S" then
            finishRpmnew cfg conf other fs (prompts + 1) o
          else loopRpmnew cfg conf other fs rest (prompts + 1)

/-- The interactive loop of `_handle_rpmsave`; identical to the rpmnew
loop except that empty input defaults to Y and D diffs in the opposite
direction. -/
def loopRpmsave (cfg : Config) (conf other : String) :
    Fsys → List InputEvent → Nat → Option HandleResult
  | fs, inputs, prompts =>
    if ¬ pathExists (fsLookup fs other) then
      some ⟨fs, prompts, none, none⟩
    else
      match inputs with
      | [] => finishRpmsave cfg conf other fs (prompts + 1) "S"
      | .eof :: _ => finishRpmsave cfg conf other fs (prompts + 1) "S"
      | .interrupt :: _ => some ⟨fs, prompts + 1, none, some 1⟩
      | .line s :: rest =>
        let o1 := pyUpper s
        if ¬ pathExists (fsLookup fs other) then some ⟨fs, prompts + 1, none, none⟩
        else
          let o := if o1 = "" then "Y" else o1
          if o = "D" then loopRpmsave cfg conf other fs rest (prompts + 1)
          else if o = "Z" then loopRpmsave cfg conf other fs rest (prompts + 1)
          else if o = "M" then
            match merge_conf_files cfg fs conf other with
            | none => none
            | some (.exited c fs2) => some ⟨fs2, prompts + 1, none, some c⟩
            | some (.proceed fs2 _) =>
              if ¬ pathExists (fsLookup fs2 other) then some ⟨fs2, prompts + 1, none, none⟩
              else loopRpmsave cfg conf other fs2 rest (prompts + 1)
          else if o = "Y" ∨ o = "I" ∨ o = "N" ∨ o = "O" ∨ o = "S" then
            finishRpmsave cfg conf other fs (prompts + 1) o
          else loopRpmsave cfg conf other fs rest (prompts + 1)

/-- `_handle_rpmnew` after the fast path: the unattended short-circuit
(use_maintainer overwrites, use_your and default delete), else the
interactive loop. -/
def afterFastNew (cfg : Config) (conf other : String) (fs : Fsys)
    (inputs : List InputEvent) : Option HandleResult :=
  if cfg.unattended = some "use_maintainer" then
    (rpmconf_overwrite cfg.debug fs other conf).map (fun r => ⟨r.1, 0, some .overwroteConf, none⟩)
  else if cfg.unattended = some "use_your" ∨ cfg.unattended = some "default" then
    (rpmconf_remove cfg.debug fs other).map (fun r => ⟨r.1, 0, some .removedOther, none⟩)
  else loopRpmnew cfg conf other fs inputs 0

/-- `_handle_rpmsave` after the fast path: use_maintainer and default
delete the backup, use_your restores it over the installed file, else
the interactive loop. -/
def afterFastSave (cfg : Config) (conf other : String) (fs : Fsys)
    (inputs : List InputEvent) : Option HandleResult :=
  if cfg.unattended = some "use_maintainer" ∨ cfg.unattended = some "default" then
    (rpmconf_remove cfg.debug fs other).map (fun r => ⟨r.1, 0, some .removedOther, none⟩)
  else if cfg.unattended = some "use_your" then
    (rpmconf_overwrite cfg.debug fs other conf).map (fun r => ⟨r.1, 0, some .overwroteConf, none⟩)
  else loopRpmsave cfg conf other fs inputs 0

/-- `RpmConf._handle_rpmnew`: the fast path deletes the artifact when
the (inverted) broken-symlink test passes, the base exists and
`filecmp.cmp` succeeds; otherwise the unattended mapping or the
interactive loop runs. -/
def handle_rpmnew (cfg : Config) (conf other : String) (fs : Fsys)
    (inputs : List InputEvent) : Option HandleResult :=
  if !(is_broken_symlink (fsLookup fs conf) || is_broken_symlink (fsLookup fs other)) &&
      pathExists (fsLookup fs conf) then
    match filecmpCmp (fsLookup fs conf) (fsLookup fs other) with
    | none => none
    | some true => (rpmconf_remove cfg.debug fs other).map (fun r => ⟨r.1, 0, some .removedOther, none⟩)
    | some false => afterFastNew cfg conf other fs inputs
  else afterFastNew cfg conf other fs inputs

/-- `RpmConf._handle_rpmsave` (also used for .rpmorig artifacts). -/
def handle_rpmsave (cfg : Config) (conf other : String) (fs : Fsys)
    (inputs : List InputEvent) : Option HandleResult :=
  if !(is_broken_symlink (fsLookup fs conf) || is_broken_symlink (fsLookup fs other)) &&
      pathExists (fsLookup fs conf) then
    match filecmpCmp (fsLookup fs conf) (fsLookup fs other) with
    | none => none
    | some true => (rpmconf_remove cfg.debug fs other).map (fun r => ⟨r.1, 0, some .removedOther, none⟩)
    | some false => afterFastSave cfg conf other fs inputs
  else afterFastSave cfg conf other fs inputs

/-- The condition under which the handlers' fast path deletes the
artifact without prompting. -/
def fastPathFires (fs : Fsys) (conf other : String) : Bool :=
  !(is_broken_symlink (fsLookup fs conf) || is_broken_symlink (fsLookup fs other)) &&
    pathExists (fsLookup fs conf) &&
    (filecmpCmp (fsLookup fs conf) (fsLookup fs other)).getD false

/-- Index of the last occurrence of a character in a list. -/
def lastIndexOf (ch : Char) (l : List Char) : Option Nat :=
  (List.range l.length).foldl (fun acc i => if l[i]? = some ch then some i else acc) none

/-- Model of `os.path.splitext` (CPython `genericpath._splitext` with
separator '/' and extension separator '.'): split off the extension at
the last dot, unless every basename character before that dot is itself
a dot. -/
def splitext (p : String) : String × String :=
  let cs := p.data
  let sepIndex : Int := match lastIndexOf '/' cs with | some i => (i : Int) | none => -1
  let dotIndex : Int := match lastIndexOf '.' cs with | some i => (i : Int) | none => -1
  if sepIndex < dotIndex ∧
      ((List.range cs.length).any
        (fun j => decide (sepIndex < (j : Int)) && decide ((j : Int) < dotIndex) &&
          (cs[j]? != some '.')) = true) then
    (String.mk (cs.take dotIndex.toNat), String.mk (cs.drop dotIndex.toNat))
  else (p, "")

/-- `RpmConf._clean_orphan_file`: strip the artifact suffix, look the
base name up in the rpm database (`dbOwner`); an owned base yields a
merge record carrying the owning package, an unowned one yields a
deletion candidate. -/
def clean_orphan_file (dbOwner : String → Option String) (name : String) :
    (Option String × String × String) × Option String :=
  let orig := (splitext name).1
  match dbOwner orig with
  | none => ((none, orig, name), some name)
  | some pkg => ((some pkg, orig, name), none)

/-- The per-file step of `_clean_orphan`'s walk body: only the suffixes
.rpmnew and .rpmsave are considered; a merge record is kept when it
names an owning package, a deletion candidate when present. -/
def scan_file (dbOwner : String → Option String) (name : String)
    (acc : List (Option String × String × String) × List String) :
    List (Option String × String × String) × List String :=
  if (splitext name).2 = ".rpmnew" ∨ (splitext name).2 = ".rpmsave" then
    let r := clean_orphan_file dbOwner name
    let acc1 := if r.1.1.isSome then (acc.1 ++ [r.1], acc.2) else acc
    match r.2 with
    | some d => (acc1.1, acc1.2 ++ [d])
    | none => acc1
  else acc

/-- All candidate files of a scan, folded through `scan_file` in walk
order. -/
def scan_files (dbOwner : String → Option String) :
    List String → (List (Option String × String × String) × List String) →
      List (Option String × String × String) × List String
  | [], acc => acc
  | nm :: rest, acc => scan_files dbOwner rest (scan_file dbOwner nm acc)

variable {n : Nat}

/-- The inode bookkeeping of `_clean_orphan`: each subdirectory identity
not yet in the visited set is added to it and kept for descent;
already-visited identities are pruned.  Directory identities are
(device, inode) pairs, indexed by `Fin n`. -/
def addChildren : List (Fin n) → Finset (Fin n) → List (Fin n) × Finset (Fin n)
  | [], v => ([], v)
  | c :: cs, v =>
    if c ∈ v then addChildren cs v
    else
      let r := addChildren cs (insert c v)
      (c :: r.1, r.2)

/-- One `os.walk(topdir, followlinks=True, topdown=True)` traversal with
the source's pruning: at each visited directory the excluded children
are dropped, the remaining ones are deduplicated against the visited
set, and the survivors are walked depth-first.  Returns the directories
visited in order together with the final visited set.  `children c`
lists the identities that `os.walk` classifies as directories inside
`c`, with the symbolic-link resolution of `os.stat` already applied. -/
def walkFrom (children : Fin n → List (Fin n)) (excl : Fin n → Bool) :
    List (Fin n) → Finset (Fin n) → List (Fin n) × Finset (Fin n)
  | [], v => ([], v)
  | c :: pending, v =>
    let p := addChildren ((children c).filter (fun d => !excl d)) v
    let r := walkFrom children excl (p.1 ++ pending) p.2
    (c :: r.1, r.2)
  termination_by l v => (n + 1 - v.card, l.length)
  decreasing_by
    have hcard : ∀ (cs : List (Fin n)) (v : Finset (Fin n)),
        (addChildren cs v).2.card = v.card + (addChildren cs v).1.length := by
      intro cs
      induction cs with
      | nil => intro v; simp [addChildren]
      | cons c cs ih =>
        intro v
        by_cases h : c ∈ v
        · simp [addChildren, h, ih v]
        · have hc : (insert c v).card = v.card + 1 := Finset.card_insert_of_not_mem h
          simp only [addChildren, if_neg h]
          rw [ih (insert c v), hc]
          simp [Nat.add_assoc, Nat.add_comm 1]
    by_cases hp : (addChildren ((children c).filter (fun d => !excl d)) v).1 = []
    · have h2 : (addChildren ((children c).filter (fun d => !excl d)) v).2.card = v.card := by
        rw [hcard]; simp [hp]
      apply Prod.Lex.right'
      · omega
      · simp [hp]
    · have hlen : 0 < (addChildren ((children c).filter (fun d => !excl d)) v).1.length :=
        List.length_pos.mpr hp
      have h2 : v.card < (addChildren ((children c).filter (fun d => !excl d)) v).2.card := by
        rw [hcard]; omega
      have hb : v.card < n + 1 := by
        have := Finset.card_le_univ v
        simp [Finset.card_univ] at this
        omega
      exact Prod.Lex.left _ _ (by omega)

/-- The outer loop of `_clean_orphan`: the scan roots are walked in
turn, excluded roots are skipped, and the visited-inode set is shared
across roots (but the roots themselves are never added to it). -/
def walkRoots (children : Fin n → List (Fin n)) (excl : Fin n → Bool) :
    List (Fin n) → (List (Fin n) × Finset (Fin n)) → List (Fin n) × Finset (Fin n)
  | [], acc => acc
  | r :: rs, acc =>
    if excl r then walkRoots children excl rs acc
    else
      let w := walkFrom children excl [r] acc.2
      walkRoots children excl rs (acc.1 ++ w.1, w.2)

/-- All directories visited by one orphan scan, in visit order. -/
def walkAll (children : Fin n → List (Fin n)) (excl : Fin n → Bool)
    (roots : List (Fin n)) : List (Fin n) :=
  (walkRoots children excl roots ([], ∅)).1

/-- A run configuration with nothing set: interactive, no dry-run, no
frontend, no MERGE variable. -/
def cfgNone : Config := ⟨false, none, none, none, .success, [], 0⟩

/-- Base file is a valid symlink resolving to the byte content [65];
artifact is a plain file with the same content: byte-identical, neither
side a broken symlink, both sides exist. -/
def fsSame : Fsys :=
  [("/etc/x.conf", .validLink "/etc/target" [65] 5),
   ("/etc/x.conf.rpmnew", .regular [65] 5)]

/-- Base and artifact are plain files with different contents (and
different sizes and mtimes). -/
def fsDiff : Fsys :=
  [("/etc/x.conf", .regular [65] 1),
   ("/etc/x.conf.rpmnew", .regular [66, 66] 2)]

/-- Walk counterexample geometry: identity 0 is the scan root; 0
contains the directory 1, and 1 contains a symbolic link resolving back
to 0. -/
def cexChildren : Fin 2 → List (Fin 2) := fun i => if i = 0 then [1] else [0]

/-- No exclusions for the walk counterexample. -/
def cexExcl : Fin 2 → Bool := fun _ => false

/-- A run configuration with the use_maintainer unattended policy. -/
def cfgUM : Config := ⟨false, some "use_maintainer", none, none, .success, [], 0⟩

/-- A run configuration whose vimdiff frontend executable is missing. -/
def cfgVimNF : Config := ⟨false, none, some "vimdiff", none, .notFound, [], 0⟩

/-- A filesystem with one broken symlink and one valid symlink, for the
diff-presentation witness. -/
def fsLinks : Fsys :=
  [("/etc/a", .brokenLink "/gone"), ("/etc/b", .validLink "/t" [1, 2] 7)]

/-- An ownership oracle declaring one owned base name. -/
def dbOwn : String → Option String :=
  fun s => if s = "/etc/a.conf" then some "pkgA" else none

/-- Updating a path and looking it up yields the new state. -/
theorem fsLookup_fsSet_self (fs : Fsys) (p : String) (s : FState) :
    fsLookup (fsSet fs p s) p = s := by
  induction fs with
  | nil => simp [fsSet, fsLookup]
  | cons e rest ih =>
    by_cases h : e.1 = p
    · simp [fsSet, h, fsLookup]
    · simp [fsSet, h, fsLookup, ih]

/-- Updating one path leaves every other path's state unchanged. -/
theorem fsLookup_fsSet_ne (fs : Fsys) (p q : String) (s : FState) (h : q ≠ p) :
    fsLookup (fsSet fs p s) q = fsLookup fs q := by
  have h1 : ¬ p = q := fun hh => h hh.symm
  induction fs with
  | nil => simp [fsSet, fsLookup, h1]
  | cons e rest ih =>
    by_cases he : e.1 = p
    · have h2 : ¬ e.1 = q := by rw [he]; exact h1
      simp [fsSet, he, fsLookup, h1, h2]
    · by_cases hq : e.1 = q
      · simp [fsSet, he, fsLookup, hq, h, h1]
      · simp [fsSet, he, fsLookup, hq, h, h1, ih]

/-- A path that exists is not absent. -/
theorem pathExists_ne_absent (a : FState) (h : pathExists a = true) : a ≠ FState.absent := by
  cases a <;> simp_all [pathExists]

/-- `filecmp.cmp` succeeds when both sides exist. -/
theorem pathExists_filecmpCmp (a b : FState) (ha : pathExists a = true)
    (hb : pathExists b = true) : ∃ bo, filecmpCmp a b = some bo := by
  cases a <;> cases b <;> simp_all [pathExists, filecmpCmp, statOf, contentOf]

/-- `_remove` on an existing path: dry run keeps the filesystem, a real
run drops the entry. -/
theorem rpmconf_remove_of_exists (d : Bool) (fs : Fsys) (p : String)
    (h : pathExists (fsLookup fs p) = true) :
    rpmconf_remove d fs p =
      some (if d then (fs, [Out.rmCmd p]) else (fsSet fs p FState.absent, [])) := by
  cases d
  · have hne : fsLookup fs p ≠ FState.absent := pathExists_ne_absent _ h
    simp [rpmconf_remove, osUnlink, hne]
  · simp [rpmconf_remove]

/-- `_remove` on an existing path returns. -/
theorem rpmconf_remove_some (d : Bool) (fs : Fsys) (p : String)
    (h : pathExists (fsLookup fs p) = true) :
    ∃ fs2 outs, rpmconf_remove d fs p = some (fs2, outs) := by
  rw [rpmconf_remove_of_exists d fs p h]
  exact ⟨_, _, rfl⟩

/-- `_overwrite` on an existing source returns. -/
theorem rpmconf_overwrite_of_exists (d : Bool) (fs : Fsys) (src dst : String)
    (h : pathExists (fsLookup fs src) = true) :
    ∃ fs2 outs, rpmconf_overwrite d fs src dst = some (fs2, outs) := by
  cases d
  · have hne : fsLookup fs src ≠ FState.absent := pathExists_ne_absent _ h
    have hcopy : rpmconf_copy fs src dst = some (fsSet fs dst (fsLookup fs src)) := by
      cases hsrc : fsLookup fs src <;> simp_all [rpmconf_copy]
    have hlk : fsLookup (fsSet fs dst (fsLookup fs src)) src ≠ FState.absent := by
      by_cases hsd : src = dst
      · rw [hsd, fsLookup_fsSet_self]
        rw [← hsd]
        exact hne
      · rw [fsLookup_fsSet_ne fs dst src _ hsd]
        exact hne
    refine ⟨fsSet (fsSet fs dst (fsLookup fs src)) src FState.absent, [], ?_⟩
    simp [rpmconf_overwrite, hcopy, osUnlink, hlk, Option.bind]
  · exact ⟨fs, [Out.cpCmd src dst], rfl⟩

/-- When the fast path does not fire (and the artifact exists, so
`filecmp.cmp` cannot raise), `_handle_rpmnew` runs its post-fast-path
part. -/
theorem handle_rpmnew_not_fast (cfg : Config) (conf other : String) (fs : Fsys)
    (inputs : List InputEvent)
    (hex : pathExists (fsLookup fs other) = true)
    (hnf : fastPathFires fs conf other = false) :
    handle_rpmnew cfg conf other fs inputs = afterFastNew cfg conf other fs inputs := by
  unfold handle_rpmnew
  cases hg : (!(is_broken_symlink (fsLookup fs conf) || is_broken_symlink (fsLookup fs other)) &&
      pathExists (fsLookup fs conf)) with
  | false => simp [hg]
  | true =>
    have hcS : pathExists (fsLookup fs conf) = true := by
      have h2 := hg
      rw [Bool.and_eq_true] at h2
      exact h2.2
    obtain ⟨bo, hbo⟩ := pathExists_filecmpCmp _ _ hcS hex
    have hfalse : bo = false := by
      unfold fastPathFires at hnf
      rw [hg, hbo] at hnf
      simpa using hnf
    simp [hg, hbo, hfalse]

/-- Same for `_handle_rpmsave`. -/
theorem handle_rpmsave_not_fast (cfg : Config) (conf other : String) (fs : Fsys)
    (inputs : List InputEvent)
    (hex : pathExists (fsLookup fs other) = true)
    (hnf : fastPathFires fs conf other = false) :
    handle_rpmsave cfg conf other fs inputs = afterFastSave cfg conf other fs inputs := by
  unfold handle_rpmsave
  cases hg : (!(is_broken_symlink (fsLookup fs conf) || is_broken_symlink (fsLookup fs other)) &&
      pathExists (fsLookup fs conf)) with
  | false => simp [hg]
  | true =>
    have hcS : pathExists (fsLookup fs conf) = true := by
      have h2 := hg
      rw [Bool.and_eq_true] at h2
      exact h2.2
    obtain ⟨bo, hbo⟩ := pathExists_filecmpCmp _ _ hcS hex
    have hfalse : bo = false := by
      unfold fastPathFires at hnf
      rw [hg, hbo] at hnf
      simpa using hnf
    simp [hg, hbo, hfalse]

/-- When the fast path fires, `_handle_rpmnew` silently removes the
artifact: no prompt, no exit. -/
theorem handle_rpmnew_fast (cfg : Config) (conf other : String) (fs : Fsys)
    (inputs : List InputEvent)
    (hex : pathExists (fsLookup fs other) = true)
    (hf : fastPathFires fs conf other = true) :
    ∃ r, handle_rpmnew cfg conf other fs inputs = some r ∧ r.prompts = 0 ∧
      r.exitCode = none ∧ r.action = some FileAction.removedOther := by
  unfold fastPathFires at hf
  rw [Bool.and_eq_true] at hf
  obtain ⟨hg, hget⟩ := hf
  have hcS : pathExists (fsLookup fs conf) = true := by
    have h2 := hg
    rw [Bool.and_eq_true] at h2
    exact h2.2
  obtain ⟨bo, hbo⟩ := pathExists_filecmpCmp _ _ hcS hex
  have htrue : bo = true := by rw [hbo] at hget; simpa using hget
  obtain ⟨fs2, outs, hrm⟩ := rpmconf_remove_some cfg.debug fs other hex
  refine ⟨⟨fs2, 0, some FileAction.removedOther, none⟩, ?_, rfl, rfl, rfl⟩
  unfold handle_rpmnew
  rw [if_pos hg, hbo, htrue]
  simp [hrm]

/-- Same for `_handle_rpmsave`. -/
theorem handle_rpmsave_fast (cfg : Config) (conf other : String) (fs : Fsys)
    (inputs : List InputEvent)
    (hex : pathExists (fsLookup fs other) = true)
    (hf : fastPathFires fs conf other = true) :
    ∃ r, handle_rpmsave cfg conf other fs inputs = some r ∧ r.prompts = 0 ∧
      r.exitCode = none ∧ r.action = some FileAction.removedOther := by
  unfold fastPathFires at hf
  rw [Bool.and_eq_true] at hf
  obtain ⟨hg, hget⟩ := hf
  have hcS : pathExists (fsLookup fs conf) = true := by
    have h2 := hg
    rw [Bool.and_eq_true] at h2
    exact h2.2
  obtain ⟨bo, hbo⟩ := pathExists_filecmpCmp _ _ hcS hex
  have htrue : bo = true := by rw [hbo] at hget; simpa using hget
  obtain ⟨fs2, outs, hrm⟩ := rpmconf_remove_some cfg.debug fs other hex
  refine ⟨⟨fs2, 0, some FileAction.removedOther, none⟩, ?_, rfl, rfl, rfl⟩
  unfold handle_rpmsave
  rw [if_pos hg, hbo, htrue]
  simp [hrm]

/-- Claim C10: with the debug (dry-run) flag set, `_remove` and
`_overwrite` leave the filesystem completely unchanged for every input
path and only print the command line they would have run. -/
theorem c10_debug_dry_run (fs : Fsys) (p src dst : String) :
    rpmconf_remove true fs p = some (fs, [Out.rmCmd p]) ∧
    rpmconf_overwrite true fs src dst = some (fs, [Out.cpCmd src dst]) :=
  ⟨rfl, rfl⟩

/-- Claim C1 (code bug, evaluated at the failing input): the base is a
valid symlink resolving to content byte-identical to the artifact, so
neither side is a broken symlink, both sides exist and the files compare
byte-identical; yet both handlers issue a prompt and leave the artifact
in place instead of deleting it silently, because `is_broken_symlink`
(contradicting its own docstring) returns true for valid symlinks and
the fast path is skipped. -/
theorem c1_identical_validlink_prompts :
    handle_rpmnew cfgNone "/etc/x.conf" "/etc/x.conf.rpmnew" fsSame [.eof] =
      some ⟨fsSame, 1, none, none⟩ ∧
    handle_rpmsave cfgNone "/etc/x.conf" "/etc/x.conf.rpmnew" fsSame [.eof] =
      some ⟨fsSame, 1, none, none⟩ ∧
    contentOf (fsLookup fsSame "/etc/x.conf") =
      contentOf (fsLookup fsSame "/etc/x.conf.rpmnew") ∧
    islink (fsLookup fsSame "/etc/x.conf") = true ∧
    pathExists (fsLookup fsSame "/etc/x.conf") = true ∧
    pathExists (fsLookup fsSame "/etc/x.conf.rpmnew") = true ∧
    is_broken_symlink (fsLookup fsSame "/etc/x.conf") = true := by decide

/-- Claim C3 counterexample: a single unrecognised, non-empty,
non-terminal input line ("X") does not resolve the file as the default
would; both handlers perform no action, leave the artifact in place and
prompt a second time. -/
theorem c3_single_unrecognized_cex :
    handle_rpmnew cfgNone "/etc/x.conf" "/etc/x.conf.rpmnew" fsDiff [.line "X"] =
      some ⟨fsDiff, 2, none, none⟩ ∧
    handle_rpmsave cfgNone "/etc/x.conf" "/etc/x.conf.rpmnew" fsDiff [.line "X"] =
      some ⟨fsDiff, 2, none, none⟩ ∧
    fsLookup fsDiff "/etc/x.conf.rpmnew" ≠ FState.absent := by decide

/-- With a set policy, `_handle_rpmnew`'s unattended step performs the
table action without prompting. -/
theorem afterFastNew_policy (cfg : Config) (conf other : String) (fs : Fsys)
    (inputs : List InputEvent) (hex : pathExists (fsLookup fs other) = true)
    (hu : cfg.unattended = some "use_maintainer" ∨ cfg.unattended = some "use_your" ∨
      cfg.unattended = some "default") :
    ∃ r, afterFastNew cfg conf other fs inputs = some r ∧ r.prompts = 0 ∧ r.exitCode = none ∧
      r.action = some (if cfg.unattended = some "use_maintainer" then FileAction.overwroteConf
        else FileAction.removedOther) := by
  rcases hu with hu | hu | hu
  · obtain ⟨fs2, outs, h⟩ := rpmconf_overwrite_of_exists cfg.debug fs other conf hex
    refine ⟨⟨fs2, 0, some FileAction.overwroteConf, none⟩, ?_, rfl, rfl, ?_⟩
    · simp [afterFastNew, hu, h]
    · simp [hu]
  · obtain ⟨fs2, outs, h⟩ := rpmconf_remove_some cfg.debug fs other hex
    have hne : ¬ cfg.unattended = some "use_maintainer" := by rw [hu]; decide
    refine ⟨⟨fs2, 0, some FileAction.removedOther, none⟩, ?_, rfl, rfl, ?_⟩
    · simp [afterFastNew, hu, hne, h]
    · simp [hne]
  · obtain ⟨fs2, outs, h⟩ := rpmconf_remove_some cfg.debug fs other hex
    have hne : ¬ cfg.unattended = some "use_maintainer" := by rw [hu]; decide
    refine ⟨⟨fs2, 0, some FileAction.removedOther, none⟩, ?_, rfl, rfl, ?_⟩
    · simp [afterFastNew, hu, hne, h]
    · simp [hne]

/-- With a set policy, `_handle_rpmsave`'s unattended step performs the
table action without prompting. -/
theorem afterFastSave_policy (cfg : Config) (conf other : String) (fs : Fsys)
    (inputs : List InputEvent) (hex : pathExists (fsLookup fs other) = true)
    (hu : cfg.unattended = some "use_maintainer" ∨ cfg.unattended = some "use_your" ∨
      cfg.unattended = some "default") :
    ∃ r, afterFastSave cfg conf other fs inputs = some r ∧ r.prompts = 0 ∧ r.exitCode = none ∧
      r.action = some (if cfg.unattended = some "use_your" then FileAction.overwroteConf
        else FileAction.removedOther) := by
  rcases hu with hu | hu | hu
  · obtain ⟨fs2, outs, h⟩ := rpmconf_remove_some cfg.debug fs other hex
    have hne : ¬ cfg.unattended = some "use_your" := by rw [hu]; decide
    refine ⟨⟨fs2, 0, some FileAction.removedOther, none⟩, ?_, rfl, rfl, ?_⟩
    · simp [afterFastSave, hu, h]
    · simp [hne]
  · obtain ⟨fs2, outs, h⟩ := rpmconf_overwrite_of_exists cfg.debug fs other conf hex
    have hne1 : ¬ cfg.unattended = some "use_maintainer" := by rw [hu]; decide
    have hne2 : ¬ cfg.unattended = some "default" := by rw [hu]; decide
    refine ⟨⟨fs2, 0, some FileAction.overwroteConf, none⟩, ?_, rfl, rfl, ?_⟩
    · simp [afterFastSave, hu, hne1, hne2, h]
    · simp [hu]
  · obtain ⟨fs2, outs, h⟩ := rpmconf_remove_some cfg.debug fs other hex
    have hne : ¬ cfg.unattended = some "use_your" := by rw [hu]; decide
    refine ⟨⟨fs2, 0, some FileAction.removedOther, none⟩, ?_, rfl, rfl, ?_⟩
    · simp [afterFastSave, hu, h]
    · simp [hne]

/-- Claim C2: with an unattended policy set, the handlers never prompt
and never exit the process; exactly one terminal action (overwrite base
with artifact, or delete artifact) occurs, and whenever the
byte-identical fast path does not apply it is exactly the table's
action: for NEW, use_maintainer overwrites while use_your and default
delete; for BACKUP/ORIG, use_your overwrites while use_maintainer and
default delete. -/
theorem c2_unattended_mapping (cfg : Config) (conf other : String) (fs : Fsys)
    (inputs : List InputEvent)
    (hex : pathExists (fsLookup fs other) = true)
    (hu : cfg.unattended = some "use_maintainer" ∨ cfg.unattended = some "use_your" ∨
      cfg.unattended = some "default") :
    (∃ r, handle_rpmnew cfg conf other fs inputs = some r ∧ r.prompts = 0 ∧
      r.exitCode = none ∧ (∃ a, r.action = some a) ∧
      (fastPathFires fs conf other = false →
        r.action = some (if cfg.unattended = some "use_maintainer" then FileAction.overwroteConf
          else FileAction.removedOther))) ∧
    (∃ r, handle_rpmsave cfg conf other fs inputs = some r ∧ r.prompts = 0 ∧
      r.exitCode = none ∧ (∃ a, r.action = some a) ∧
      (fastPathFires fs conf other = false →
        r.action = some (if cfg.unattended = some "use_your" then FileAction.overwroteConf
          else FileAction.removedOther))) := by
  constructor
  · cases hfq : fastPathFires fs conf other with
    | true =>
      obtain ⟨r, hr, h0, hx, ha⟩ := handle_rpmnew_fast cfg conf other fs inputs hex hfq
      exact ⟨r, hr, h0, hx, ⟨_, ha⟩, fun hc => Bool.noConfusion hc⟩
    | false =>
      rw [handle_rpmnew_not_fast cfg conf other fs inputs hex hfq]
      obtain ⟨r, hr, h0, hx, ha⟩ := afterFastNew_policy cfg conf other fs inputs hex hu
      exact ⟨r, hr, h0, hx, ⟨_, ha⟩, fun _ => ha⟩
  · cases hfq : fastPathFires fs conf other with
    | true =>
      obtain ⟨r, hr, h0, hx, ha⟩ := handle_rpmsave_fast cfg conf other fs inputs hex hfq
      exact ⟨r, hr, h0, hx, ⟨_, ha⟩, fun hc => Bool.noConfusion hc⟩
    | false =>
      rw [handle_rpmsave_not_fast cfg conf other fs inputs hex hfq]
      obtain ⟨r, hr, h0, hx, ha⟩ := afterFastSave_policy cfg conf other fs inputs hex hu
      exact ⟨r, hr, h0, hx, ⟨_, ha⟩, fun _ => ha⟩

/-- Witness for claim C2 at a concrete pair with differing contents and
the use_maintainer policy. -/
theorem c2_unattended_mapping_witness :
    (∃ r, handle_rpmnew cfgUM "/etc/x.conf" "/etc/x.conf.rpmnew" fsDiff [] = some r ∧
      r.prompts = 0 ∧ r.exitCode = none ∧ (∃ a, r.action = some a) ∧
      (fastPathFires fsDiff "/etc/x.conf" "/etc/x.conf.rpmnew" = false →
        r.action = some (if cfgUM.unattended = some "use_maintainer" then
          FileAction.overwroteConf else FileAction.removedOther))) ∧
    (∃ r, handle_rpmsave cfgUM "/etc/x.conf" "/etc/x.conf.rpmnew" fsDiff [] = some r ∧
      r.prompts = 0 ∧ r.exitCode = none ∧ (∃ a, r.action = some a) ∧
      (fastPathFires fsDiff "/etc/x.conf" "/etc/x.conf.rpmnew" = false →
        r.action = some (if cfgUM.unattended = some "use_your" then
          FileAction.overwroteConf else FileAction.removedOther))) :=
  c2_unattended_mapping cfgUM "/etc/x.conf" "/etc/x.conf.rpmnew" fsDiff []
    (by decide) (Or.inl rfl)

/-- Claim C3 (amended): in the interactive path an unrecognised,
non-empty, non-terminal input line does not resolve the file; the loop
consumes it, re-prompts, and continues with the remaining input and the
state unchanged (it is empty input, not unrecognised input, that maps
to the kind's default). -/
theorem c3_unrecognized_reprompts (cfg : Config) (conf other : String) (fs : Fsys)
    (s : String) (rest : List InputEvent) (prompts : Nat)
    (hex : pathExists (fsLookup fs other) = true)
    (hne : pyUpper s ≠ "")
    (hnr : pyUpper s ∉ (["Y", "I", "N", "O", "S", "D", "Z", "M"] : List String)) :
    loopRpmnew cfg conf other fs (.line s :: rest) prompts =
      loopRpmnew cfg conf other fs rest (prompts + 1) ∧
    loopRpmsave cfg conf other fs (.line s :: rest) prompts =
      loopRpmsave cfg conf other fs rest (prompts + 1) := by
  simp only [List.mem_cons, List.not_mem_nil, or_false] at hnr
  push_neg at hnr
  obtain ⟨hY, hI, hN, hO, hS, hD, hZ, hM⟩ := hnr
  constructor
  · conv_lhs => rw [loopRpmnew]
    simp [hex, hne, hY, hI, hN, hO, hS, hD, hZ, hM]
  · conv_lhs => rw [loopRpmsave]
    simp [hex, hne, hY, hI, hN, hO, hS, hD, hZ, hM]

/-- Witness for claim C3's amended statement at the input line "Q". -/
theorem c3_unrecognized_reprompts_witness :
    loopRpmnew cfgNone "/etc/x.conf" "/etc/x.conf.rpmnew" fsDiff [.line "Q"] 0 =
      loopRpmnew cfgNone "/etc/x.conf" "/etc/x.conf.rpmnew" fsDiff [] 1 ∧
    loopRpmsave cfgNone "/etc/x.conf" "/etc/x.conf.rpmnew" fsDiff [.line "Q"] 0 =
      loopRpmsave cfgNone "/etc/x.conf" "/etc/x.conf.rpmnew" fsDiff [] 1 :=
  c3_unrecognized_reprompts cfgNone "/etc/x.conf" "/etc/x.conf.rpmnew" fsDiff "Q" [] 0
    (by decide) (by decide) (by decide)

/-- Claim C4: in the interactive path an empty input line resolves
exactly as the kind's default: for both kinds the installed base file is
left untouched and the artifact is deleted, after a single prompt. -/
theorem c4_empty_input_default (cfg : Config) (conf other : String) (fs : Fsys)
    (rest : List InputEvent)
    (hd : cfg.debug = false) (hu : cfg.unattended = none) (hne : conf ≠ other)
    (hex : pathExists (fsLookup fs other) = true)
    (hnf : fastPathFires fs conf other = false) :
    handle_rpmnew cfg conf other fs (.line "" :: rest) =
      some ⟨fsSet fs other FState.absent, 1, some FileAction.removedOther, none⟩ ∧
    handle_rpmsave cfg conf other fs (.line "" :: rest) =
      some ⟨fsSet fs other FState.absent, 1, some FileAction.removedOther, none⟩ ∧
    fsLookup (fsSet fs other FState.absent) conf = fsLookup fs conf := by
  have hrm := rpmconf_remove_of_exists cfg.debug fs other hex
  rw [hd] at hrm
  simp only [Bool.false_eq_true, if_false] at hrm
  refine ⟨?_, ?_, fsLookup_fsSet_ne fs other conf FState.absent hne⟩
  · rw [handle_rpmnew_not_fast cfg conf other fs (.line "" :: rest) hex hnf]
    simp [afterFastNew, hu, loopRpmnew, hex, finishRpmnew, hd, hrm,
      show pyUpper "" = "" from rfl]
  · rw [handle_rpmsave_not_fast cfg conf other fs (.line "" :: rest) hex hnf]
    simp [afterFastSave, hu, loopRpmsave, hex, finishRpmsave, hd, hrm,
      show pyUpper "" = "" from rfl]

/-- Witness for claim C4 at a concrete pair with differing contents. -/
theorem c4_empty_input_default_witness :
    handle_rpmnew cfgNone "/etc/x.conf" "/etc/x.conf.rpmnew" fsDiff [.line ""] =
      some ⟨fsSet fsDiff "/etc/x.conf.rpmnew" FState.absent, 1,
        some FileAction.removedOther, none⟩ ∧
    handle_rpmsave cfgNone "/etc/x.conf" "/etc/x.conf.rpmnew" fsDiff [.line ""] =
      some ⟨fsSet fsDiff "/etc/x.conf.rpmnew" FState.absent, 1,
        some FileAction.removedOther, none⟩ ∧
    fsLookup (fsSet fsDiff "/etc/x.conf.rpmnew" FState.absent) "/etc/x.conf" =
      fsLookup fsDiff "/etc/x.conf" :=
  c4_empty_input_default cfgNone "/etc/x.conf" "/etc/x.conf.rpmnew" fsDiff []
    rfl rfl (by decide) (by decide) (by decide)

/-- Claim C8: during per-file resolution an end-of-input condition on
the prompt read maps to Skip, ending the loop with both the base and the
artifact untouched and no exit; a user interrupt during the read
terminates the whole process with exit status 1 without resolving the
file. -/
theorem c8_read_failure_modes (cfg : Config) (conf other : String) (fs : Fsys)
    (rest : List InputEvent)
    (hu : cfg.unattended = none)
    (hex : pathExists (fsLookup fs other) = true)
    (hnf : fastPathFires fs conf other = false) :
    handle_rpmnew cfg conf other fs [.eof] = some ⟨fs, 1, none, none⟩ ∧
    handle_rpmsave cfg conf other fs [.eof] = some ⟨fs, 1, none, none⟩ ∧
    handle_rpmnew cfg conf other fs (.interrupt :: rest) = some ⟨fs, 1, none, some 1⟩ ∧
    handle_rpmsave cfg conf other fs (.interrupt :: rest) = some ⟨fs, 1, none, some 1⟩ := by
  refine ⟨?_, ?_, ?_, ?_⟩
  · rw [handle_rpmnew_not_fast cfg conf other fs [.eof] hex hnf]
    simp [afterFastNew, hu, loopRpmnew, hex, finishRpmnew]
  · rw [handle_rpmsave_not_fast cfg conf other fs [.eof] hex hnf]
    simp [afterFastSave, hu, loopRpmsave, hex, finishRpmsave]
  · rw [handle_rpmnew_not_fast cfg conf other fs (.interrupt :: rest) hex hnf]
    simp [afterFastNew, hu, loopRpmnew, hex]
  · rw [handle_rpmsave_not_fast cfg conf other fs (.interrupt :: rest) hex hnf]
    simp [afterFastSave, hu, loopRpmsave, hex]

/-- Witness for claim C8 at a concrete pair with differing contents. -/
theorem c8_read_failure_modes_witness :
    handle_rpmnew cfgNone "/etc/x.conf" "/etc/x.conf.rpmnew" fsDiff [.eof] =
      some ⟨fsDiff, 1, none, none⟩ ∧
    handle_rpmsave cfgNone "/etc/x.conf" "/etc/x.conf.rpmnew" fsDiff [.eof] =
      some ⟨fsDiff, 1, none, none⟩ ∧
    handle_rpmnew cfgNone "/etc/x.conf" "/etc/x.conf.rpmnew" fsDiff [.interrupt] =
      some ⟨fsDiff, 1, none, some 1⟩ ∧
    handle_rpmsave cfgNone "/etc/x.conf" "/etc/x.conf.rpmnew" fsDiff [.interrupt] =
      some ⟨fsDiff, 1, none, some 1⟩ :=
  c8_read_failure_modes cfgNone "/etc/x.conf" "/etc/x.conf.rpmnew" fsDiff []
    rfl (by decide) (by decide)

/-- Claim C5: for each side given to show_diff, a missing file or a
broken symbolic link is replaced by the null file /dev/null with an
explanatory warning, a valid symbolic link is annotated with its target
and its mtime is used as that side's diff timestamp, and the pager
output is the accumulated messages followed by the diff body (so the
warnings are prepended to the diff). -/
theorem c5_diff_presentation (fs : Fsys) (f1 f2 t : String) (c : List Nat) (m : Nat) :
    (fsLookup fs f1 = FState.absent →
      show_diff_side f1 (fsLookup fs f1) = ("/dev/null", none, [Out.warnMissing f1])) ∧
    (fsLookup fs f1 = FState.brokenLink t →
      show_diff_side f1 (fsLookup fs f1) =
        ("/dev/null", none, [Out.infoSymlink f1 t, Out.warnBroken f1])) ∧
    (fsLookup fs f1 = FState.validLink t c m →
      show_diff_side f1 (fsLookup fs f1) = (f1, some m, [Out.infoSymlink f1 t])) ∧
    (fsLookup fs f1 = FState.regular c m →
      show_diff_side f1 (fsLookup fs f1) = (f1, some m, [])) ∧
    show_diff fs f1 f2 =
      (show_diff_side f1 (fsLookup fs f1)).2.2 ++ (show_diff_side f2 (fsLookup fs f2)).2.2 ++
        [Out.diffBody (show_diff_side f1 (fsLookup fs f1)).1
          (show_diff_side f2 (fsLookup fs f2)).1
          (show_diff_side f1 (fsLookup fs f1)).2.1
          (show_diff_side f2 (fsLookup fs f2)).2.1] := by
  refine ⟨?_, ?_, ?_, ?_, rfl⟩ <;> intro h <;> rw [h] <;>
    simp [show_diff_side, islink, is_broken_symlink, pathExists, linkTarget, statOf]

/-- Witness for claim C5 on a broken link, a valid link and a missing
file. -/
theorem c5_diff_presentation_witness :
    show_diff_side "/etc/a" (fsLookup fsLinks "/etc/a") =
      ("/dev/null", none, [Out.infoSymlink "/etc/a" "/gone", Out.warnBroken "/etc/a"]) ∧
    show_diff_side "/etc/b" (fsLookup fsLinks "/etc/b") =
      ("/etc/b", some 7, [Out.infoSymlink "/etc/b" "/t"]) ∧
    show_diff_side "/etc/c" (fsLookup fsLinks "/etc/c") =
      ("/dev/null", none, [Out.warnMissing "/etc/c"]) :=
  ⟨(c5_diff_presentation fsLinks "/etc/a" "/etc/b" "/gone" [] 0).2.1 (by decide),
   (c5_diff_presentation fsLinks "/etc/b" "/etc/a" "/t" [1, 2] 7).2.2.1 (by decide),
   (c5_diff_presentation fsLinks "/etc/c" "/etc/a" "" [] 0).1 (by decide)⟩

/-- A candidate whose base name is owned extends the merge list only. -/
theorem scan_file_eq_owned (db : String → Option String) (name : String)
    (acc : List (Option String × String × String) × List String) (pkg : String)
    (hs : (splitext name).2 = ".rpmnew" ∨ (splitext name).2 = ".rpmsave")
    (hdb : db (splitext name).1 = some pkg) :
    scan_file db name acc = (acc.1 ++ [(some pkg, (splitext name).1, name)], acc.2) := by
  unfold scan_file clean_orphan_file
  rw [if_pos hs]
  simp [hdb]

/-- A candidate whose base name is unowned extends the delete list only. -/
theorem scan_file_eq_orphan (db : String → Option String) (name : String)
    (acc : List (Option String × String × String) × List String)
    (hs : (splitext name).2 = ".rpmnew" ∨ (splitext name).2 = ".rpmsave")
    (hdb : db (splitext name).1 = none) :
    scan_file db name acc = (acc.1, acc.2 ++ [name]) := by
  unfold scan_file clean_orphan_file
  rw [if_pos hs]
  simp [hdb]

/-- A file without a recognised suffix is ignored by the scan. -/
theorem scan_file_eq_skip (db : String → Option String) (name : String)
    (acc : List (Option String × String × String) × List String)
    (hs : ¬ ((splitext name).2 = ".rpmnew" ∨ (splitext name).2 = ".rpmsave")) :
    scan_file db name acc = acc := by
  unfold scan_file
  rw [if_neg hs]

/-- Every deletion candidate recorded by the scan fold entered through
an unowned base name. -/
theorem scan_files_delete_sound (db : String → Option String) :
    ∀ (names : List String) (acc : List (Option String × String × String) × List String)
      (x : String), x ∈ (scan_files db names acc).2 → x ∈ acc.2 ∨ db (splitext x).1 = none := by
  intro names
  induction names with
  | nil => intro acc x hx; exact Or.inl hx
  | cons nm rest ih =>
    intro acc x hx
    simp only [scan_files] at hx
    rcases ih (scan_file db nm acc) x hx with hx2 | hx2
    · by_cases hs : (splitext nm).2 = ".rpmnew" ∨ (splitext nm).2 = ".rpmsave"
      · cases hdb : db (splitext nm).1 with
        | none =>
          rw [scan_file_eq_orphan db nm acc hs hdb] at hx2
          rcases List.mem_append.mp hx2 with h | h
          · exact Or.inl h
          · rw [List.mem_singleton.mp h]
            exact Or.inr hdb
        | some pkg =>
          rw [scan_file_eq_owned db nm acc pkg hs hdb] at hx2
          exact Or.inl hx2
      · rw [scan_file_eq_skip db nm acc hs] at hx2
        exact Or.inl hx2
    · exact Or.inr hx2

/-- Claim C6 counterexample: a regular file with the suffix .rpmorig is
not processed by the orphan scan at all: with no owner anywhere it is
still recorded neither as needs_merge nor as an orphan, because the scan
only recognises .rpmnew and .rpmsave. -/
theorem c6_rpmorig_not_scanned_cex :
    scan_files (fun _ => none) ["/etc/foo.conf.rpmorig"] ([], []) = ([], []) ∧
    (splitext "/etc/foo.conf.rpmorig").2 = ".rpmorig" := by decide

/-- Claim C6 (amended): the orphan scan recognises exactly the suffixes
.rpmnew and .rpmsave; for those it strips the suffix and queries
ownership of the base name: an owned base is recorded as needs_merge
with the owning package and never enters the deletion list, an unowned
one is recorded as an orphan eligible for deletion; files with any
other suffix (including .rpmorig) are ignored. -/
theorem c6_scan_classification (db : String → Option String) (name : String)
    (mrg : List (Option String × String × String)) (del : List String)
    (names : List String) (x : String) :
    ((splitext name).2 = ".rpmnew" ∨ (splitext name).2 = ".rpmsave" →
      (∀ pkg, db (splitext name).1 = some pkg →
        scan_file db name (mrg, del) = (mrg ++ [(some pkg, (splitext name).1, name)], del)) ∧
      (db (splitext name).1 = none →
        scan_file db name (mrg, del) = (mrg, del ++ [name]))) ∧
    (¬ ((splitext name).2 = ".rpmnew" ∨ (splitext name).2 = ".rpmsave") →
      scan_file db name (mrg, del) = (mrg, del)) ∧
    (x ∈ (scan_files db names ([], [])).2 → db (splitext x).1 = none) := by
  refine ⟨fun hs => ⟨fun pkg hdb => scan_file_eq_owned db name (mrg, del) pkg hs hdb,
    fun hdb => scan_file_eq_orphan db name (mrg, del) hs hdb⟩,
    fun hs => scan_file_eq_skip db name (mrg, del) hs, fun hx => ?_⟩
  rcases scan_files_delete_sound db names ([], []) x hx with h | h
  · simp at h
  · exact h

/-- Witness for claim C6 on an owned .rpmsave, an unowned .rpmnew and a
non-artifact file. -/
theorem c6_scan_classification_witness :
    scan_file dbOwn "/etc/a.conf.rpmsave" ([], []) =
      ([(some "pkgA", "/etc/a.conf", "/etc/a.conf.rpmsave")], []) ∧
    scan_file (fun _ => none) "/etc/b.conf.rpmnew" ([], []) =
      ([], ["/etc/b.conf.rpmnew"]) ∧
    scan_file dbOwn "/etc/a.conf.txt" ([], []) = ([], []) :=
  ⟨((c6_scan_classification dbOwn "/etc/a.conf.rpmsave" [] [] [] "").1
      (by decide)).1 "pkgA" (by decide),
   ((c6_scan_classification (fun _ => none) "/etc/b.conf.rpmnew" [] [] [] "").1
      (by decide)).2 rfl,
   (c6_scan_classification dbOwn "/etc/a.conf.txt" [] [] [] "").2.1 (by decide)⟩

/-- Claim C9: when no merge frontend is configured and no MERGE
environment override exists, the merge dispatch terminates the process
with exit status 2; when the resolved merge executable cannot be found
(whatever the configured frontend or the MERGE override), it terminates
the process with exit status 4. -/
theorem c9_merge_fatal_errors (cfg : Config) (fs : Fsys) (conf other : String) :
    (cfg.frontend = none → cfg.mergeEnv = none →
      merge_conf_files cfg fs conf other = some (.exited 2 fs)) ∧
    (cfg.callResult = .notFound →
      (cfg.frontend = some "vimdiff" ∨ cfg.frontend = some "gvimdiff" ∨
       cfg.frontend = some "meld" ∨ cfg.frontend = some "diffuse" ∨
       cfg.frontend = some "kdiff3" ∨ cfg.frontend = some "sdiff" ∨
       ((cfg.frontend = some "env" ∨ cfg.frontend = none) ∧ cfg.mergeEnv ≠ none)) →
      ∃ fs2, merge_conf_files cfg fs conf other = some (.exited 4 fs2)) := by
  constructor
  · intro hf hm
    simp [merge_conf_files, hf, hm]
  · intro hcall hfr
    rcases hfr with h | h | h | h | h | h | ⟨h, hm⟩
    · exact ⟨fs, by simp [merge_conf_files, h, hcall]⟩
    · exact ⟨fs, by simp [merge_conf_files, h, hcall]⟩
    · exact ⟨fs, by simp [merge_conf_files, h, hcall]⟩
    · exact ⟨fs, by simp [merge_conf_files, h, hcall]⟩
    · exact ⟨fs, by simp [merge_conf_files, h, hcall]⟩
    · exact ⟨fsSet fs tmpPath (.regular [] 0), by simp [merge_conf_files, h, hcall]⟩
    · rcases h with h | h
      · exact ⟨fs, by simp [merge_conf_files, h, hm, hcall]⟩
      · exact ⟨fs, by simp [merge_conf_files, h, hm, hcall]⟩

/-- Witness for claim C9: no frontend and no MERGE exits with 2; a
missing vimdiff executable exits with 4. -/
theorem c9_merge_fatal_errors_witness :
    merge_conf_files cfgNone [] "/etc/x.conf" "/etc/x.conf.rpmnew" =
      some (.exited 2 []) ∧
    ∃ fs2, merge_conf_files cfgVimNF [] "/etc/x.conf" "/etc/x.conf.rpmnew" =
      some (.exited 4 fs2) :=
  ⟨(c9_merge_fatal_errors cfgNone [] "/etc/x.conf" "/etc/x.conf.rpmnew").1 rfl rfl,
   (c9_merge_fatal_errors cfgVimNF [] "/etc/x.conf" "/etc/x.conf.rpmnew").2 rfl (Or.inl rfl)⟩

/-- The inode bookkeeping produces the old set united with the kept
children. -/
theorem addChildren_union (cs : List (Fin n)) (v : Finset (Fin n)) :
    (addChildren cs v).2 = v ∪ (addChildren cs v).1.toFinset := by
  induction cs generalizing v with
  | nil => simp [addChildren]
  | cons c cs ih =>
    by_cases h : c ∈ v
    · simpa [addChildren, h] using ih v
    · simp only [addChildren, if_neg h]
      rw [ih (insert c v)]
      ext y
      simp [Finset.mem_union, Finset.mem_insert, List.mem_toFinset]

/-- The kept children were not yet visited, and are kept once each. -/
theorem addChildren_fresh (cs : List (Fin n)) (v : Finset (Fin n)) :
    (∀ x ∈ (addChildren cs v).1, x ∉ v) ∧ (addChildren cs v).1.Nodup := by
  induction cs generalizing v with
  | nil => simp [addChildren]
  | cons c cs ih =>
    by_cases h : c ∈ v
    · simpa [addChildren, h] using ih v
    · obtain ⟨ihf, ihd⟩ := ih (insert c v)
      simp only [addChildren, if_neg h]
      refine ⟨?_, ?_⟩
      · intro x hx
        rcases List.mem_cons.mp hx with hx | hx
        · intro hv
          rw [hx] at hv
          exact h hv
        · intro hv
          exact ihf x hx (Finset.mem_insert_of_mem hv)
      · refine List.nodup_cons.mpr ⟨?_, ihd⟩
        intro hc
        exact ihf c hc (Finset.mem_insert_self c v)

/-- The visited-inode set only grows along a walk. -/
theorem walkFrom_mono (children : Fin n → List (Fin n)) (excl : Fin n → Bool) :
    ∀ (l : List (Fin n)) (v : Finset (Fin n)), v ⊆ (walkFrom children excl l v).2 := by
  intro l v
  induction l, v using walkFrom.induct children excl with
  | case1 v => simp [walkFrom]
  | case2 c pending v =>
    rename_i ih
    have ih2 : (addChildren ((children c).filter (fun d => !excl d)) v).2 ⊆
        (walkFrom children excl
          ((addChildren ((children c).filter (fun d => !excl d)) v).1 ++ pending)
          (addChildren ((children c).filter (fun d => !excl d)) v).2).2 := ih
    simp only [walkFrom]
    refine subset_trans ?_ ih2
    rw [addChildren_union]
    exact Finset.subset_union_left

/-- Exact visit count along one walk: an identity is visited once per
occurrence in the pending stack, plus once more exactly when the walk
newly records it in the visited set. -/
theorem walkFrom_count (children : Fin n → List (Fin n)) (excl : Fin n → Bool) (x : Fin n) :
    ∀ (l : List (Fin n)) (v : Finset (Fin n)),
      (walkFrom children excl l v).1.count x =
        l.count x + (if x ∈ (walkFrom children excl l v).2 ∧ x ∉ v then 1 else 0) := by
  intro l v
  induction l, v using walkFrom.induct children excl with
  | case1 v => simp [walkFrom]
  | case2 c pending v =>
    rename_i ih
    have hu := addChildren_union ((children c).filter (fun d => !excl d)) v
    have hf := addChildren_fresh ((children c).filter (fun d => !excl d)) v
    have hm := walkFrom_mono children excl
      ((addChildren ((children c).filter (fun d => !excl d)) v).1 ++ pending)
      (addChildren ((children c).filter (fun d => !excl d)) v).2
    have ih2 : (walkFrom children excl
        ((addChildren ((children c).filter (fun d => !excl d)) v).1 ++ pending)
        (addChildren ((children c).filter (fun d => !excl d)) v).2).1.count x =
        ((addChildren ((children c).filter (fun d => !excl d)) v).1 ++ pending).count x +
        (if x ∈ (walkFrom children excl
            ((addChildren ((children c).filter (fun d => !excl d)) v).1 ++ pending)
            (addChildren ((children c).filter (fun d => !excl d)) v).2).2 ∧
          x ∉ (addChildren ((children c).filter (fun d => !excl d)) v).2 then 1 else 0) := ih
    clear ih
    simp only [walkFrom]
    rw [List.count_cons, List.count_cons, ih2, List.count_append]
    by_cases hxs : x ∈ (addChildren ((children c).filter (fun d => !excl d)) v).1
    · have h1 : (addChildren ((children c).filter (fun d => !excl d)) v).1.count x = 1 :=
        List.count_eq_one_of_mem hf.2 hxs
      have hxv : x ∉ v := hf.1 x hxs
      have hxp2 : x ∈ (addChildren ((children c).filter (fun d => !excl d)) v).2 := by
        rw [hu]
        exact Finset.mem_union_right _ (List.mem_toFinset.mpr hxs)
      have hc1 : (if x ∈ (walkFrom children excl
          ((addChildren ((children c).filter (fun d => !excl d)) v).1 ++ pending)
          (addChildren ((children c).filter (fun d => !excl d)) v).2).2 ∧
          x ∉ (addChildren ((children c).filter (fun d => !excl d)) v).2 then 1 else 0) = 0 := by
        rw [if_neg]
        intro hcon
        exact hcon.2 hxp2
      have hc2 : (if x ∈ (walkFrom children excl
          ((addChildren ((children c).filter (fun d => !excl d)) v).1 ++ pending)
          (addChildren ((children c).filter (fun d => !excl d)) v).2).2 ∧
          x ∉ v then 1 else 0) = 1 := by
        rw [if_pos ⟨hm hxp2, hxv⟩]
      rw [h1, hc1, hc2]
      omega
    · have h0 : (addChildren ((children c).filter (fun d => !excl d)) v).1.count x = 0 :=
        List.count_eq_zero_of_not_mem hxs
      by_cases hxv : x ∈ v
      · have hxp2 : x ∈ (addChildren ((children c).filter (fun d => !excl d)) v).2 := by
          rw [hu]
          exact Finset.mem_union_left _ hxv
        have hc1 : (if x ∈ (walkFrom children excl
            ((addChildren ((children c).filter (fun d => !excl d)) v).1 ++ pending)
            (addChildren ((children c).filter (fun d => !excl d)) v).2).2 ∧
            x ∉ (addChildren ((children c).filter (fun d => !excl d)) v).2 then 1 else 0) = 0 := by
          rw [if_neg]
          intro hcon
          exact hcon.2 hxp2
        have hc2 : (if x ∈ (walkFrom children excl
            ((addChildren ((children c).filter (fun d => !excl d)) v).1 ++ pending)
            (addChildren ((children c).filter (fun d => !excl d)) v).2).2 ∧
            x ∉ v then 1 else 0) = 0 := by
          rw [if_neg]
          intro hcon
          exact hcon.2 hxv
        rw [h0, hc1, hc2]
        omega
      · have hxp2 : x ∉ (addChildren ((children c).filter (fun d => !excl d)) v).2 := by
          rw [hu]
          intro hcon
          rcases Finset.mem_union.mp hcon with hcon | hcon
          · exact hxv hcon
          · exact hxs (List.mem_toFinset.mp hcon)
        have hiff : (x ∈ (walkFrom children excl
            ((addChildren ((children c).filter (fun d => !excl d)) v).1 ++ pending)
            (addChildren ((children c).filter (fun d => !excl d)) v).2).2 ∧
            x ∉ (addChildren ((children c).filter (fun d => !excl d)) v).2) ↔
            (x ∈ (walkFrom children excl
            ((addChildren ((children c).filter (fun d => !excl d)) v).1 ++ pending)
            (addChildren ((children c).filter (fun d => !excl d)) v).2).2 ∧ x ∉ v) := by
          constructor
          · intro hcon
            exact ⟨hcon.1, hxv⟩
          · intro hcon
            exact ⟨hcon.1, hxp2⟩
        rw [h0, if_congr hiff rfl rfl]
        omega

/-- The visited-inode set only grows across scan roots. -/
theorem walkRoots_mono (children : Fin n → List (Fin n)) (excl : Fin n → Bool) :
    ∀ (rs : List (Fin n)) (acc : List (Fin n) × Finset (Fin n)),
      acc.2 ⊆ (walkRoots children excl rs acc).2 := by
  intro rs
  induction rs with
  | nil =>
    intro acc
    simp [walkRoots]
  | cons r rs ih =>
    intro acc
    by_cases h : excl r = true
    · simpa [walkRoots, h] using ih acc
    · simp only [walkRoots]
      rw [if_neg h]
      refine subset_trans (walkFrom_mono children excl [r] acc.2) ?_
      exact ih (acc.1 ++ (walkFrom children excl [r] acc.2).1,
        (walkFrom children excl [r] acc.2).2)

/-- Visit-count bound across scan roots: each identity is visited at
most once per occurrence as a root, plus once more if the scan newly
records it. -/
theorem walkRoots_count (children : Fin n → List (Fin n)) (excl : Fin n → Bool) (x : Fin n) :
    ∀ (rs : List (Fin n)) (acc : List (Fin n) × Finset (Fin n)),
      (walkRoots children excl rs acc).1.count x ≤
        acc.1.count x + rs.count x +
          (if x ∈ (walkRoots children excl rs acc).2 ∧ x ∉ acc.2 then 1 else 0) := by
  intro rs
  induction rs with
  | nil =>
    intro acc
    simp [walkRoots]
  | cons r rs ih =>
    intro acc
    by_cases h : excl r = true
    · have hle := ih acc
      simp only [walkRoots]
      rw [if_pos h]
      rw [List.count_cons]
      split_ifs at hle ⊢ <;> omega
    · simp only [walkRoots]
      rw [if_neg h]
      have hw := walkFrom_count children excl x [r] acc.2
      have hle := ih (acc.1 ++ (walkFrom children excl [r] acc.2).1,
        (walkFrom children excl [r] acc.2).2)
      rw [List.count_append, hw] at hle
      have hmono := walkRoots_mono children excl rs
        (acc.1 ++ (walkFrom children excl [r] acc.2).1,
          (walkFrom children excl [r] acc.2).2)
      have hmono2 := walkFrom_mono children excl [r] acc.2
      rw [List.count_cons]
      by_cases h1 : x ∈ (walkFrom children excl [r] acc.2).2 ∧ x ∉ acc.2
      · have hin : x ∈ (walkRoots children excl rs
            (acc.1 ++ (walkFrom children excl [r] acc.2).1,
              (walkFrom children excl [r] acc.2).2)).2 := hmono h1.1
        have hsnd : ¬ (x ∈ (walkRoots children excl rs
            (acc.1 ++ (walkFrom children excl [r] acc.2).1,
              (walkFrom children excl [r] acc.2).2)).2 ∧
            x ∉ (walkFrom children excl [r] acc.2).2) := by
          intro hc
          exact hc.2 h1.1
        rw [if_pos h1, if_neg hsnd] at hle
        rw [if_pos (⟨hin, h1.2⟩ : x ∈ (walkRoots children excl rs
            (acc.1 ++ (walkFrom children excl [r] acc.2).1,
              (walkFrom children excl [r] acc.2).2)).2 ∧ x ∉ acc.2)]
        rw [List.count_singleton] at hle
        split_ifs at hle ⊢ <;> omega
      · rw [if_neg h1] at hle
        by_cases h2 : x ∈ (walkRoots children excl rs
            (acc.1 ++ (walkFrom children excl [r] acc.2).1,
              (walkFrom children excl [r] acc.2).2)).2 ∧
            x ∉ (walkFrom children excl [r] acc.2).2
        · have hna : x ∉ acc.2 := fun hxa => h2.2 (hmono2 hxa)
          rw [if_pos h2] at hle
          rw [if_pos (⟨h2.1, hna⟩ : x ∈ (walkRoots children excl rs
              (acc.1 ++ (walkFrom children excl [r] acc.2).1,
                (walkFrom children excl [r] acc.2).2)).2 ∧ x ∉ acc.2)]
          rw [List.count_singleton] at hle
          split_ifs at hle ⊢ <;> omega
        · rw [if_neg h2] at hle
          rw [List.count_singleton] at hle
          split_ifs at hle ⊢ <;> omega

/-- Claim C7 (amended): the orphan scan always terminates (the walk is a
total function) and visits each directory identity at most once more
than the number of times that identity occurs as a scan root: each
subdirectory identity is recorded in the visited set before descent and
already-visited identities are pruned, but the roots themselves are
never recorded, so a root identity can be re-entered once through a
symbolic link.  In particular every identity that is not a scan root is
descended into at most once per scan. -/
theorem c7_visit_bound (children : Fin n → List (Fin n)) (excl : Fin n → Bool)
    (roots : List (Fin n)) (x : Fin n) :
    (walkAll children excl roots).count x ≤ roots.count x + 1 := by
  have h := walkRoots_count children excl x roots ([], ∅)
  unfold walkAll
  simp only [List.count_nil] at h
  split_ifs at h <;> omega

/-- Claim C7 counterexample: with scan root 0 containing directory 1
whose entry links back to 0, the walk terminates but visits identity 0
twice (once as the root, once through the link), refuting strict
at-most-once visiting. -/
theorem c7_root_revisited_cex :
    (walkAll cexChildren cexExcl [0]).count 0 = 2 := by
  simp [walkAll, walkRoots, walkFrom, addChildren, cexChildren, cexExcl]

end Rpmconf
